import Mathlib

/-!
Verification of cbtools-autobench (Couchbase tools auto-benchmarker).

Shallow embedding of the Go source into Lean 4. Each definition mirrors one
Go function (file and line references in the doc comments); machine integers
are modelled as `Nat`/`Int`, Go `time.Duration` as nanoseconds (`Nat`),
fallible operations as `Except`/`Option`, and Go multi-value returns
`(T, error)` as products.
-/

namespace Autobench

/-! ## Dataset load split (`Cluster.loadData`, nodes/cluster.go:516-537)

The Go code fills a channel with `len(c.nodes)` share counts: the first
`len(c.nodes)-1` sends are `Items / len(c.nodes)` and the final send is
`Items / len(c.nodes) + Items % len(c.nodes)`. Each node's loader receives
exactly one share. `loadDataItems items n` is the ordered list of values
sent on the channel, for `items` requested items and `n` nodes. -/

def loadDataItems (items n : Nat) : List Nat :=
  List.replicate (n - 1) (items / n) ++ [items / n + items % n]

/-- C1: for every node count `n ≥ 1` and requested total `items`, the
dataset-load split has one share per node, gives each of the first `n - 1`
nodes exactly `items / n` (integer division), gives the last node
`items / n + items % n`, and the shares sum exactly to `items`; concretely,
2 nodes with 500,000 items split as 250,000/250,000 and with 500,001 items
as 250,000/250,001. -/
theorem loadData_split_correct (n items : Nat) (h : 1 ≤ n) :
    (loadDataItems items n).length = n ∧
    (loadDataItems items n).take (n - 1) = List.replicate (n - 1) (items / n) ∧
    (loadDataItems items n).getLast? = some (items / n + items % n) ∧
    (loadDataItems items n).sum = items ∧
    loadDataItems 500000 2 = [250000, 250000] ∧
    loadDataItems 500001 2 = [250000, 250001] := by
  obtain ⟨m, rfl⟩ : ∃ m, n = m + 1 := ⟨n - 1, (Nat.succ_pred_eq_of_pos h).symm⟩
  refine ⟨?_, ?_, ?_, ?_, by decide, by decide⟩
  · simp [loadDataItems]
  · have h2 := List.take_left (List.replicate (m + 1 - 1) (items / (m + 1)))
      [items / (m + 1) + items % (m + 1)]
    rw [List.length_replicate] at h2
    exact h2
  · simp [loadDataItems, List.getLast?_concat]
  · have hdm := Nat.div_add_mod items (m + 1)
    simp only [loadDataItems, List.sum_append, List.sum_replicate, List.sum_cons,
      List.sum_nil, smul_eq_mul, Nat.add_sub_cancel]
    ring_nf
    ring_nf at hdm
    omega

/-- Closed witness for `loadData_split_correct` at `n = 2`, `items = 500001`. -/
theorem loadData_split_correct_witness :
    (loadDataItems 500001 2).sum = 500001 :=
  (loadData_split_correct 2 500001 (by decide)).2.2.2.1

/-! ## Convergence poller (`poll`, nodes/cluster.go:699-721)

The Go function arms a context with deadline `timeout` and a ticker firing
every 15 seconds, then loops on a `select`: when the context expires it
returns `(true, nil)`; on each tick it evaluates `pollFunc`, returning
`(false, err)` on error and `(false, nil)` on `true`, otherwise looping.
We model time in nanoseconds. Ticks happen at `15s, 30s, ...`; tick `k`
(0-based) is delivered iff it fires strictly before the deadline (an exact
tie is resolved in favour of the expired context). `pollFunc` is a pure
function of the tick index, returning `Except` for `(bool, error)`. -/

def pollIntervalNs : Nat := 15 * 1000000000

/-- Number of ticker deliveries occurring strictly before the deadline:
the number of `k ≥ 1` with `pollIntervalNs * k < timeout`. -/
def pollTickCount (timeout : Nat) : Nat :=
  (timeout + pollIntervalNs - 1) / pollIntervalNs - 1

/-- The `select` loop of `poll`, evaluating `pollFunc` at tick indices
`i, i+1, ...` with `fuel` ticks remaining before the context deadline. -/
def pollLoop (pollFunc : Nat → Except E Bool) : Nat → Nat → Bool × Option E
  | _, 0 => (true, none)
  | i, fuel + 1 =>
    match pollFunc i with
    | .error e => (false, some e)
    | .ok true => (false, none)
    | .ok false => pollLoop pollFunc (i + 1) fuel

def poll (pollFunc : Nat → Except E Bool) (timeout : Nat) : Bool × Option E :=
  pollLoop pollFunc 0 (pollTickCount timeout)

/-- `pollLoop` started at 0 with the predicate all-false over the available
ticks times out. -/
theorem pollLoop_all_false {E : Type} (pollFunc : Nat → Except E Bool) :
    ∀ fuel i, (∀ j, j < fuel → pollFunc (i + j) = .ok false) →
      pollLoop pollFunc i fuel = (true, none) := by
  intro fuel
  induction fuel with
  | zero => intro i _; rfl
  | succ n ih =>
    intro i h
    have h0 : pollFunc i = .ok false := by simpa using h 0 (Nat.succ_pos n)
    have : pollLoop pollFunc i (n + 1) = pollLoop pollFunc (i + 1) n := by
      simp [pollLoop, h0]
    rw [this]
    exact ih (i + 1) fun j hj => by
      have := h (j + 1) (Nat.succ_lt_succ hj)
      simpa [Nat.add_assoc, Nat.add_comm 1 j] using this

/-- `pollLoop` stops at the first tick whose outcome is not `ok false`. -/
theorem pollLoop_first_hit {E : Type} (pollFunc : Nat → Except E Bool)
    (j : Nat) (out : Except E Bool) (hout : pollFunc j = out)
    (hprev : ∀ i, i < j → pollFunc i = .ok false) :
    ∀ fuel, j < fuel →
      pollLoop pollFunc 0 fuel =
        (match out with
         | .error e => (false, some e)
         | .ok true => (false, none)
         | .ok false => pollLoop pollFunc (j + 1) (fuel - (j + 1))) := by
  -- Generalize over the starting index.
  suffices h : ∀ k fuel, k ≤ j → j - k < fuel →
      pollLoop pollFunc k fuel =
        (match out with
         | .error e => (false, some e)
         | .ok true => (false, none)
         | .ok false => pollLoop pollFunc (j + 1) (fuel - (j + 1 - k))) by
    intro fuel hfuel
    simpa using h 0 fuel (Nat.zero_le j) (by simpa using hfuel)
  intro k fuel
  induction fuel generalizing k with
  | zero => intro _ h; omega
  | succ n ih =>
    intro hk hlt
    by_cases hkj : k = j
    · subst hkj
      cases out with
      | error e => simp [pollLoop, hout]
      | ok b =>
        cases b with
        | true => simp [pollLoop, hout]
        | false => simp [pollLoop, hout]
    · have hklt : k < j := lt_of_le_of_ne hk hkj
      have hkf : pollFunc k = .ok false := hprev k hklt
      have step : pollLoop pollFunc k (n + 1) = pollLoop pollFunc (k + 1) n := by
        simp [pollLoop, hkf]
      rw [step, ih (k + 1) (by omega) (by omega)]
      cases out with
      | error e => rfl
      | ok b =>
        cases b with
        | true => rfl
        | false =>
          have : n - (j + 1 - (k + 1)) = n + 1 - (j + 1 - k) := by omega
          rw [this]

/-- C2: the convergence poller (a) returns timedOut true with no error
whenever the predicate reports `false` at every tick available before the
timeout, (b) returns `(false, some e)` when the predicate's first
non-`false` outcome is the error `e` at a tick before the timeout,
(c) returns `(false, none)` when that first non-`false` outcome is `true`,
and (d) evaluates the predicate zero times when the timeout is at most the
fixed 15-second interval — the result is `(true, none)` independent of the
predicate, so there is no immediate first check. -/
theorem poll_contract {E : Type} (pollFunc : Nat → Except E Bool) (timeout : Nat) :
    ((∀ j, j < pollTickCount timeout → pollFunc j = .ok false) →
        poll pollFunc timeout = (true, none)) ∧
    (∀ j e, j < pollTickCount timeout → pollFunc j = .error e →
        (∀ i, i < j → pollFunc i = .ok false) →
        poll pollFunc timeout = (false, some e)) ∧
    (∀ j, j < pollTickCount timeout → pollFunc j = .ok true →
        (∀ i, i < j → pollFunc i = .ok false) →
        poll pollFunc timeout = (false, none)) ∧
    (timeout ≤ pollIntervalNs →
        pollTickCount timeout = 0 ∧ poll pollFunc timeout = (true, none)) := by
  refine ⟨?_, ?_, ?_, ?_⟩
  · intro h
    exact pollLoop_all_false pollFunc (pollTickCount timeout) 0 fun j hj => by
      simpa using h j hj
  · intro j e hj hout hprev
    simpa using pollLoop_first_hit pollFunc j (.error e) hout hprev _ hj
  · intro j hj hout hprev
    simpa using pollLoop_first_hit pollFunc j (.ok true) hout hprev _ hj
  · intro h
    have hc : pollTickCount timeout = 0 := by
      simp only [pollTickCount, pollIntervalNs] at h ⊢
      omega
    exact ⟨hc, by simp [poll, hc, pollLoop]⟩

/-- Closed witness for `poll_contract`: with a 60s timeout and a predicate
erroring at tick 1 after `false` at tick 0, `poll` reports `(false, some 42)`. -/
theorem poll_contract_witness :
    poll (fun i => if i = 0 then .ok false else .error 42) (60 * 1000000000) =
      (false, some 42) := by
  refine (poll_contract (fun i => if i = 0 then .ok false else .error 42)
      (60 * 1000000000)).2.1 1 42 (by decide) rfl ?_
  intro i hi
  interval_cases i
  · rfl

/-! ## Benchmark iteration loops
(`BackupClient.BenchmarkBackup`, nodes/cluster.go:826-863 and
`BackupClient.BenchmarkRestore`, nodes/cluster.go:865-914)

Both functions first run `purgeArchive` and `createRepository` (restore also
runs `createBackup` once), returning `(nil, err)` if any prelude fails, then
allocate `results := make(value.BenchmarkResults, 0, config.Iterations)`
(cluster.go:844 and 887) — which panics at run time with "makeslice: cap out
of range" when `config.Iterations` is negative — and then loop
`for iteration := 0; iteration < max(1, config.Iterations); iteration++`.
Each iteration runs the timed operation (restore first flushes the bucket
unless `Blackhole` is set); on error the function returns `(nil, err)`
immediately; on success the result is appended and `ctx.Err()` is checked —
if the context is cancelled the loop breaks and `(results, nil)` is returned.

The embedding: errors are a type parameter `E`, iteration results `R`.
`run i` is the outcome of the timed operation of 0-based iteration `i`;
`ctxDone i` is the value of `ctx.Err() != nil` observed at the end of
iteration `i`; Go's `(value.BenchmarkResults, error)` return becomes
`Option (List R) × Option E` (`none` for Go `nil`), and the whole call is
wrapped in one more `Option` whose `none` models the run-time panic of the
`make` allocation. -/

def benchLoop (run : Nat → Except E R) (ctxDone : Nat → Bool) :
    Nat → Nat → List R → Option (List R) × Option E
  | _, 0, acc => (some acc, none)
  | i, fuel + 1, acc =>
    match run i with
    | .error e => (none, some e)
    | .ok r =>
      if ctxDone i then (some (acc ++ [r]), none)
      else benchLoop run ctxDone (i + 1) fuel (acc ++ [r])

/-- Go `make(value.BenchmarkResults, 0, capacity)`: a negative capacity
panics at run time ("makeslice: cap out of range"), modelled as `none`;
otherwise the empty result slice is allocated. -/
def goMakeSlice (capacity : Int) : Option (List R) :=
  if capacity < 0 then none else some []

def BenchmarkBackup (purgeArchive createRepository : Option E) (iterations : Int)
    (run : Nat → Except E R) (ctxDone : Nat → Bool) :
    Option (Option (List R) × Option E) :=
  match purgeArchive with
  | some e => some (none, some e)
  | none =>
    match createRepository with
    | some e => some (none, some e)
    | none =>
      match goMakeSlice iterations with
      | none => none
      | some acc => some (benchLoop run ctxDone 0 (max 1 iterations).toNat acc)

/-- The restore loop body additionally flushes the destination bucket before
the timed restore, skipped when the run is configured to blackhole. -/
def restoreLoop (flush : Nat → Option E) (blackhole : Bool)
    (run : Nat → Except E R) (ctxDone : Nat → Bool) :
    Nat → Nat → List R → Option (List R) × Option E
  | _, 0, acc => (some acc, none)
  | i, fuel + 1, acc =>
    match (if blackhole then none else flush i) with
    | some e => (none, some e)
    | none =>
      match run i with
      | .error e => (none, some e)
      | .ok r =>
        if ctxDone i then (some (acc ++ [r]), none)
        else restoreLoop flush blackhole run ctxDone (i + 1) fuel (acc ++ [r])

def BenchmarkRestore (purgeArchive createRepository : Option E)
    (createBackup : Except E B) (blackhole : Bool) (flush : Nat → Option E)
    (iterations : Int) (run : B → Nat → Except E R) (ctxDone : Nat → Bool) :
    Option (Option (List R) × Option E) :=
  match purgeArchive with
  | some e => some (none, some e)
  | none =>
    match createRepository with
    | some e => some (none, some e)
    | none =>
      match createBackup with
      | .error e => some (none, some e)
      | .ok b =>
        match goMakeSlice iterations with
        | none => none
        | some acc =>
          some (restoreLoop flush blackhole (run b) ctxDone 0
            (max 1 iterations).toNat acc)

/-- When every flush is skipped or succeeds, the restore loop coincides with
the backup loop on the same run/cancellation behaviour. -/
theorem restoreLoop_eq_benchLoop {E R : Type} (flush : Nat → Option E)
    (blackhole : Bool) (run : Nat → Except E R) (ctxDone : Nat → Bool)
    (hflush : ∀ i, (if blackhole then none else flush i) = (none : Option E)) :
    ∀ fuel i acc, restoreLoop flush blackhole run ctxDone i fuel acc =
      benchLoop run ctxDone i fuel acc := by
  intro fuel
  induction fuel with
  | zero => intro i acc; rfl
  | succ n ih =>
    intro i acc
    simp only [restoreLoop, benchLoop, hflush i]
    cases hr : run i with
    | error e => rfl
    | ok r =>
      by_cases hc : ctxDone i
      · simp [hc]
      · simp [hc, ih]

/-- With a non-negative iteration count the `make` allocation succeeds and
the backup benchmark reduces to its iteration loop on the empty slice. -/
theorem BenchmarkBackup_eq_loop {E R : Type} (iterations : Int)
    (hge : 0 ≤ iterations) (run : Nat → Except E R) (ctxDone : Nat → Bool) :
    BenchmarkBackup none none iterations run ctxDone =
      some (benchLoop run ctxDone 0 (max 1 iterations).toNat []) := by
  have hmk : goMakeSlice iterations = (some [] : Option (List R)) := by
    unfold goMakeSlice
    rw [if_neg (not_lt.mpr hge)]
  simp [BenchmarkBackup, hmk]

/-- With a negative iteration count the backup benchmark panics at the
`make` allocation before any iteration runs. -/
theorem BenchmarkBackup_panics {E R : Type} (iterations : Int)
    (hlt : iterations < 0) (run : Nat → Except E R) (ctxDone : Nat → Bool) :
    BenchmarkBackup none none iterations run ctxDone = none := by
  have hmk : goMakeSlice iterations = (none : Option (List R)) := by
    unfold goMakeSlice
    rw [if_pos hlt]
  simp [BenchmarkBackup, hmk]

/-- With a non-negative iteration count the `make` allocation succeeds and
the restore benchmark reduces to its iteration loop on the empty slice. -/
theorem BenchmarkRestore_eq_loop {E R B : Type} (iterations : Int)
    (hge : 0 ≤ iterations) (b : B) (blackhole : Bool) (flush : Nat → Option E)
    (run : B → Nat → Except E R) (ctxDone : Nat → Bool) :
    BenchmarkRestore none none (.ok b) blackhole flush iterations run ctxDone =
      some (restoreLoop flush blackhole (run b) ctxDone 0
        (max 1 iterations).toNat []) := by
  have hmk : goMakeSlice iterations = (some [] : Option (List R)) := by
    unfold goMakeSlice
    rw [if_neg (not_lt.mpr hge)]
  simp [BenchmarkRestore, hmk]

/-- With a negative iteration count the restore benchmark panics at the
`make` allocation before any iteration runs. -/
theorem BenchmarkRestore_panics {E R B : Type} (iterations : Int)
    (hlt : iterations < 0) (b : B) (blackhole : Bool) (flush : Nat → Option E)
    (run : B → Nat → Except E R) (ctxDone : Nat → Bool) :
    BenchmarkRestore none none (.ok b) blackhole flush iterations run ctxDone =
      none := by
  have hmk : goMakeSlice iterations = (none : Option (List R)) := by
    unfold goMakeSlice
    rw [if_pos hlt]
  simp [BenchmarkRestore, hmk]

/-- Index shift for mapping a result function over `List.range`. -/
theorem range_map_shift {R : Type} (r : Nat → R) (n i : Nat) :
    (List.range (n + 1)).map (fun j => r (i + j)) =
      r i :: (List.range n).map (fun j => r (i + 1 + j)) := by
  rw [List.range_succ_eq_map, List.map_cons, List.map_map]
  simp only [Nat.add_zero]
  congr 1
  apply List.map_congr_left
  intro a _
  simp only [Function.comp_apply]
  congr 1
  omega

/-- A run with no failures and no cancellation executes every iteration the
fuel allows, appending results in execution order. -/
theorem benchLoop_all_ok {E R : Type} (run : Nat → Except E R) (r : Nat → R)
    (hrun : ∀ i, run i = .ok (r i)) (ctxDone : Nat → Bool)
    (hctx : ∀ i, ctxDone i = false) :
    ∀ fuel i acc, benchLoop run ctxDone i fuel acc =
      (some (acc ++ (List.range fuel).map (fun j => r (i + j))), none) := by
  intro fuel
  induction fuel with
  | zero => intro i acc; simp [benchLoop]
  | succ n ih =>
    intro i acc
    simp only [benchLoop, hrun i, hctx i, Bool.false_eq_true, if_false]
    rw [ih (i + 1) (acc ++ [r i]), range_map_shift r n i]
    simp [List.append_assoc]

/-- When the cancellation signal is first observed at the end of iteration
`k` (0-based), all iterations succeeding, the loop completes exactly
iterations `i..k` and stops. -/
theorem benchLoop_cancelled {E R : Type} (run : Nat → Except E R) (r : Nat → R)
    (hrun : ∀ i, run i = .ok (r i)) (ctxDone : Nat → Bool) (k : Nat)
    (hk : ctxDone k = true) (hprev : ∀ i, i < k → ctxDone i = false) :
    ∀ fuel i acc, i ≤ k → k - i < fuel →
      benchLoop run ctxDone i fuel acc =
        (some (acc ++ (List.range (k - i + 1)).map (fun j => r (i + j))), none) := by
  intro fuel
  induction fuel with
  | zero => intro i acc _ h; omega
  | succ n ih =>
    intro i acc hik hlt
    by_cases hik' : i = k
    · subst hik'
      simp [benchLoop, hrun i, hk, List.range_succ]
    · have hi : i < k := lt_of_le_of_ne hik hik'
      simp only [benchLoop, hrun i, hprev i hi, Bool.false_eq_true, if_false]
      rw [ih (i + 1) (acc ++ [r i]) (by omega) (by omega)]
      have hki : k - i + 1 = (k - (i + 1) + 1) + 1 := by omega
      rw [hki, range_map_shift r (k - (i + 1) + 1) i]
      simp [List.append_assoc]

/-- The loop aborts at the first failing iteration, returning `(none, e)`:
the Go code's `return nil, errors.Wrap(err, ...)` discards the accumulator. -/
theorem benchLoop_first_error {E R : Type} (run : Nat → Except E R) (r : Nat → R)
    (ctxDone : Nat → Bool) (j : Nat) (e : E) (herr : run j = .error e)
    (hprev : ∀ i, i < j → run i = .ok (r i) ∧ ctxDone i = false) :
    ∀ fuel i acc, i ≤ j → j - i < fuel →
      benchLoop run ctxDone i fuel acc = (none, some e) := by
  intro fuel
  induction fuel with
  | zero => intro i acc _ h; omega
  | succ n ih =>
    intro i acc hij hlt
    by_cases hij' : i = j
    · subst hij'
      simp [benchLoop, herr]
    · have hi : i < j := lt_of_le_of_ne hij hij'
      obtain ⟨hok, hc⟩ := hprev i hi
      simp only [benchLoop, hok, hc, Bool.false_eq_true, if_false]
      exact ih (i + 1) (acc ++ [r i]) (by omega) (by omega)

/-- C3 counterexample: with iterations = -1, all preludes succeeding, every
iteration succeeding and no cancellation, both benchmark functions panic at
the `make(value.BenchmarkResults, 0, config.Iterations)` allocation (modelled
as `none`) before running any iteration — refuting the claim that a negative
configured iteration count still yields exactly one result. -/
theorem benchmark_negative_iterations_counterexample :
    BenchmarkBackup (E := Unit) none none (-1) (fun i => Except.ok i)
      (fun _ => false) = none ∧
    BenchmarkRestore (E := Unit) none none (.ok ()) false (fun _ => none) (-1)
      (fun _ i => Except.ok i) (fun _ => false) = none :=
  ⟨rfl, rfl⟩

/-- C3 amended: with all preludes and iterations succeeding and no
cancellation, both the backup and the restore benchmark loops produce exactly
`max(1, iterations)` results in execution order when the configured iteration
count is non-negative — one result when it is zero, exactly `iterations`
results when it is positive — while a negative iteration count panics at the
result-slice allocation before the loop starts. -/
theorem benchmark_min_one_iteration {E R B : Type} (iterations : Int)
    (run : Nat → Except E R) (r : Nat → R) (hrun : ∀ i, run i = .ok (r i))
    (ctxDone : Nat → Bool) (hctx : ∀ i, ctxDone i = false)
    (b : B) (rrun : B → Nat → Except E R) (hrrun : ∀ i, rrun b i = .ok (r i))
    (blackhole : Bool) (flush : Nat → Option E) (hflush : ∀ i, flush i = none) :
    (0 ≤ iterations → ∃ l : List R,
      BenchmarkBackup none none iterations run ctxDone = some (some l, none) ∧
      BenchmarkRestore none none (.ok b) blackhole flush iterations rrun ctxDone =
        some (some l, none) ∧
      l = (List.range (max 1 iterations).toNat).map r ∧
      (iterations = 0 → l.length = 1) ∧
      (0 < iterations → (l.length : Int) = iterations)) ∧
    (iterations < 0 →
      BenchmarkBackup none none iterations run ctxDone = none ∧
      BenchmarkRestore none none (.ok b) blackhole flush iterations rrun ctxDone =
        none) := by
  constructor
  · intro hge
    refine ⟨(List.range (max 1 iterations).toNat).map r, ?_, ?_, rfl, ?_, ?_⟩
    · rw [BenchmarkBackup_eq_loop iterations hge run ctxDone,
        benchLoop_all_ok run r hrun ctxDone hctx (max 1 iterations).toNat 0 []]
      simp
    · rw [BenchmarkRestore_eq_loop iterations hge b blackhole flush rrun ctxDone,
        restoreLoop_eq_benchLoop flush blackhole (rrun b) ctxDone
          (fun i => by cases blackhole <;> simp [hflush]) (max 1 iterations).toNat 0 [],
        benchLoop_all_ok (rrun b) r hrrun ctxDone hctx (max 1 iterations).toNat 0 []]
      simp
    · intro h
      have hm : max 1 iterations = 1 := max_eq_left (by omega)
      simp [hm]
    · intro h
      have hm : max 1 iterations = iterations := max_eq_right (by omega)
      simp [hm, Int.toNat_of_nonneg h.le]
  · intro hlt
    exact ⟨BenchmarkBackup_panics iterations hlt run ctxDone,
      BenchmarkRestore_panics iterations hlt b blackhole flush rrun ctxDone⟩

/-- Closed witness for `benchmark_min_one_iteration`: with `iterations = 0`
the backup benchmark still produces exactly one result. -/
theorem benchmark_min_one_iteration_witness :
    BenchmarkBackup (E := Unit) none none 0 (fun i => Except.ok i)
      (fun _ => false) = some (some [0], none) := by
  obtain ⟨l, h1, _, h3, _, _⟩ :=
    (benchmark_min_one_iteration (E := Unit) (B := Unit) 0 (fun i => Except.ok i)
      (fun i => i) (fun _ => rfl) (fun _ => false) (fun _ => rfl) ()
      (fun _ i => Except.ok i) (fun _ => rfl) false (fun _ => none)
      (fun _ => rfl)).1 (by decide)
  rw [h1, h3]
  rfl

/-- C4: the cancellation signal is observed only at iteration boundaries:
if, during a run configured for `n` iterations with every iteration
succeeding, the signal is first observed at the end of iteration `k`
(`1 ≤ k < n`, 1-based), both benchmark loops complete iteration `k`, append
its result, start no further iteration, and return exactly the `k` results
of iterations `1..k` with no partial extra entry. -/
theorem benchmark_cancellation {E R B : Type} (n k : Nat) (hk1 : 1 ≤ k)
    (hkn : k < n)
    (run : Nat → Except E R) (r : Nat → R) (hrun : ∀ i, run i = .ok (r i))
    (ctxDone : Nat → Bool) (hset : ctxDone (k - 1) = true)
    (hbefore : ∀ i, i < k - 1 → ctxDone i = false)
    (b : B) (rrun : B → Nat → Except E R) (hrrun : ∀ i, rrun b i = .ok (r i))
    (blackhole : Bool) (flush : Nat → Option E) (hflush : ∀ i, flush i = none) :
    BenchmarkBackup none none (n : Int) run ctxDone =
      some ((some ((List.range k).map r), none)) ∧
    BenchmarkRestore none none (.ok b) blackhole flush (n : Int) rrun ctxDone =
      some ((some ((List.range k).map r), none)) ∧
    ((List.range k).map r).length = k := by
  have hfuel : (max 1 (n : Int)).toNat = n := by
    rw [max_eq_right (by exact_mod_cast Nat.one_le_iff_ne_zero.mpr (by omega))]
    exact Int.toNat_natCast n
  have hmain := benchLoop_cancelled run r hrun ctxDone (k - 1) hset hbefore
    n 0 [] (by omega) (by omega)
  have hmain' := benchLoop_cancelled (rrun b) r hrrun ctxDone (k - 1) hset hbefore
    n 0 [] (by omega) (by omega)
  have hk : k - 1 + 1 = k := by omega
  refine ⟨?_, ?_, by simp⟩
  · rw [BenchmarkBackup_eq_loop (n : Int) (Int.natCast_nonneg n) run ctxDone,
      hfuel, hmain]
    simp [hk]
  · rw [BenchmarkRestore_eq_loop (n : Int) (Int.natCast_nonneg n) b blackhole
      flush rrun ctxDone, hfuel,
      restoreLoop_eq_benchLoop flush blackhole (rrun b) ctxDone
        (fun i => by cases blackhole <;> simp [hflush]) n 0 [],
      hmain']
    simp [hk]

/-- Closed witness for `benchmark_cancellation`: signal observed during
iteration 2 of 5 yields exactly the two completed results. -/
theorem benchmark_cancellation_witness :
    BenchmarkBackup (E := Unit) none none ((5 : Nat) : Int) (fun i => Except.ok i)
      (fun i => decide (1 ≤ i)) = some ((some [0, 1], none)) := by
  have h := (benchmark_cancellation (E := Unit) (B := Unit) 5 2 (by decide)
    (by decide) (fun i => Except.ok i) (fun i => i) (fun _ => rfl)
    (fun i => decide (1 ≤ i)) rfl
    (fun i hi => by interval_cases i; rfl) ()
    (fun _ i => Except.ok i) (fun _ => rfl) false (fun _ => none)
    (fun _ => rfl)).1
  rw [h]
  rfl

/-- C5 counterexample: iterations = 3, iteration 1 succeeds with result 7,
iteration 2 fails with error 5. The backup benchmark returns `(nil, err)`:
the completed result 7 is *not* returned alongside the error, refuting the
claim that completed iterations survive a fatal error. -/
theorem benchmark_error_counterexample :
    BenchmarkBackup (E := Nat) (R := Nat) none none 3
        (fun i => if i = 0 then .ok 7 else .error 5) (fun _ => false) =
      some ((none, some 5)) ∧
    BenchmarkBackup (E := Nat) (R := Nat) none none 3
        (fun i => if i = 0 then .ok 7 else .error 5) (fun _ => false) ≠
      some ((some [7], some 5)) := by
  refine ⟨rfl, fun h => ?_⟩
  exact absurd h (by decide)

/-- C5 amended: when a fatal error occurs in iteration `k` of a backup or
restore benchmark run whose configured iteration count is non-negative (a
negative count panics at the result-slice allocation before any iteration),
the loop aborts immediately and returns the error with a `nil` result slice —
the `k - 1` already-completed iteration results are discarded, not returned;
completed results reach the caller only on success or cooperative
cancellation. -/
theorem benchmark_error_returns_nil {E R B : Type} (iterations : Int)
    (hge : 0 ≤ iterations)
    (run : Nat → Except E R) (r : Nat → R) (ctxDone : Nat → Bool)
    (j : Nat) (e : E) (herr : run j = .error e)
    (hprev : ∀ i, i < j → run i = .ok (r i) ∧ ctxDone i = false)
    (hj : (j : Int) < max 1 iterations)
    (b : B) (rrun : B → Nat → Except E R) (herr2 : rrun b j = .error e)
    (hprev2 : ∀ i, i < j → rrun b i = .ok (r i) ∧ ctxDone i = false)
    (blackhole : Bool) (flush : Nat → Option E) (hflush : ∀ i, flush i = none) :
    BenchmarkBackup none none iterations run ctxDone = some ((none, some e)) ∧
    BenchmarkRestore none none (.ok b) blackhole flush iterations rrun ctxDone =
      some ((none, some e)) := by
  have hfuel : j < (max 1 iterations).toNat := by
    rcases le_or_lt iterations 1 with h | h
    · rw [max_eq_left h] at hj ⊢
      omega
    · rw [max_eq_right h.le] at hj ⊢
      omega
  constructor
  · rw [BenchmarkBackup_eq_loop iterations hge run ctxDone]
    exact congrArg some (benchLoop_first_error run r ctxDone j e herr hprev
      (max 1 iterations).toNat 0 [] (Nat.zero_le j) (by omega))
  · rw [BenchmarkRestore_eq_loop iterations hge b blackhole flush rrun ctxDone,
      restoreLoop_eq_benchLoop flush blackhole (rrun b) ctxDone
        (fun i => by cases blackhole <;> simp [hflush]) (max 1 iterations).toNat 0 []]
    exact congrArg some (benchLoop_first_error (rrun b) r ctxDone j e herr2 hprev2
      (max 1 iterations).toNat 0 [] (Nat.zero_le j) (by omega))

/-- Closed witness for `benchmark_error_returns_nil`: a run of 2 iterations
whose first iteration fails with error 9 returns Go `(nil, err)` — modelled
`(none, some 9)` — for both benchmark variants. -/
theorem benchmark_error_returns_nil_witness :
    BenchmarkBackup (E := Nat) (R := Nat) none none 2 (fun _ => .error 9)
        (fun _ => false) = some ((none, some 9)) ∧
    BenchmarkRestore (E := Nat) (R := Nat) none none (.ok ()) false
        (fun _ => none) 2 (fun _ _ => .error 9) (fun _ => false) =
      some ((none, some 9)) :=
  benchmark_error_returns_nil 2 (by decide) (fun _ => .error 9) (fun i => i)
    (fun _ => false) 0 9 rfl (fun i hi => absurd hi (by omega)) (by decide)
    () (fun _ _ => .error 9) rfl (fun i hi => absurd hi (by omega))
    false (fun _ => none) (fun _ => rfl)

/-! ## Average transfer rates
(`BenchmarkResult.AvgTransferRateGDS`, value/benchmark.go:44-50 and
`BenchmarkResult.AvgTransferRateADS`, value/benchmark.go:53-59)

`Duration` is a Go `time.Duration` (nanoseconds, modelled as `Nat` for the
non-negative durations the claim ranges over); `time.Second = 10^9`.
`uint64(d.Seconds())` truncates the elapsed time to whole seconds, which for
durations below `2^53` ns is exactly `d / 10^9`. `ADS` and the blueprint's
`Size`/`Items` are modelled as `Nat`. -/

def timeSecondNs : Nat := 1000000000

def AvgTransferRateADS (ads durationNs : Nat) : Nat :=
  if durationNs < timeSecondNs then ads
  else ads / (durationNs / timeSecondNs)

def AvgTransferRateGDS (size items durationNs : Nat) : Nat :=
  if durationNs < timeSecondNs then size * items
  else (size * items) / (durationNs / timeSecondNs)

/-- C6: both average transfer rates are total non-negative naturals for
every size and duration; with a duration of at least one second the divisor
(the whole number of elapsed seconds) is at least 1 — never zero — and the
rate is the size (ADS, or `Size * Items` for GDS) divided by it, while with
a sub-second duration the rate is the raw size itself. -/
theorem avgTransferRate_total {ads size items durationNs : Nat} :
    0 ≤ AvgTransferRateADS ads durationNs ∧
    0 ≤ AvgTransferRateGDS size items durationNs ∧
    (durationNs < timeSecondNs →
      AvgTransferRateADS ads durationNs = ads ∧
      AvgTransferRateGDS size items durationNs = size * items) ∧
    (timeSecondNs ≤ durationNs →
      1 ≤ durationNs / timeSecondNs ∧
      AvgTransferRateADS ads durationNs = ads / (durationNs / timeSecondNs) ∧
      AvgTransferRateGDS size items durationNs =
        (size * items) / (durationNs / timeSecondNs)) := by
  refine ⟨Nat.zero_le _, Nat.zero_le _, fun h => ?_, fun h => ?_⟩
  · exact ⟨by simp [AvgTransferRateADS, h], by simp [AvgTransferRateGDS, h]⟩
  · have hdiv : 1 ≤ durationNs / timeSecondNs :=
      (Nat.one_le_div_iff (by decide)).mpr h
    exact ⟨hdiv, by simp [AvgTransferRateADS, Nat.not_lt.mpr h],
      by simp [AvgTransferRateGDS, Nat.not_lt.mpr h]⟩

/-- Closed witness for `avgTransferRate_total`: a 2.5 s transfer of 1000
bytes is reported at `1000 / 2 = 500` bytes per second. -/
theorem avgTransferRate_total_witness :
    AvgTransferRateADS 1000 2500000000 = 500 := by
  have h := (@avgTransferRate_total 1000 0 0 2500000000).2.2.2 (by decide)
  rw [h.2.1]
  rfl

/-! ## Compaction-status predicate
(`Cluster.compactionComplete`, nodes/cluster.go:229-258)

The Go function fetches `/pools/default/tasks`, decodes it into a list of
`{type, status}` overlays, returns `false` as soon as any task has type
`"bucket_compaction"` with status `"running"`, and otherwise returns
`len(decoded) == 1 && decoded[0].Type == "rebalance"`. We model the decoded
task list directly. -/

structure ClusterTask where
  type : String
  status : String

def compactionComplete (decoded : List ClusterTask) : Bool :=
  if decoded.any (fun t => t.type == "bucket_compaction" && t.status == "running")
  then false
  else decoded.length == 1 &&
    (match decoded.head? with
     | some t => t.type == "rebalance"
     | none => false)

/-- C7: the compaction-completion predicate reports "still running"
(`false`) whenever some task is a running bucket compaction; otherwise it
reports complete exactly when the task list has exactly one entry whose type
is `"rebalance"`; in particular the empty task list is reported as not
complete. -/
theorem compactionComplete_contract (decoded : List ClusterTask) :
    ((∃ t ∈ decoded, t.type = "bucket_compaction" ∧ t.status = "running") →
      compactionComplete decoded = false) ∧
    ((∀ t ∈ decoded, ¬(t.type = "bucket_compaction" ∧ t.status = "running")) →
      (compactionComplete decoded = true ↔
        decoded.length = 1 ∧ ∃ t, decoded.head? = some t ∧ t.type = "rebalance")) ∧
    compactionComplete [] = false := by
  refine ⟨fun h => ?_, fun h => ?_, rfl⟩
  · obtain ⟨t, ht, h1, h2⟩ := h
    have : decoded.any
        (fun t => t.type == "bucket_compaction" && t.status == "running") = true := by
      rw [List.any_eq_true]
      exact ⟨t, ht, by simp [h1, h2]⟩
    simp [compactionComplete, this]
  · have hno : decoded.any
        (fun t => t.type == "bucket_compaction" && t.status == "running") = false := by
      rw [List.any_eq_false]
      intro t ht
      have := h t ht
      simp only [Bool.and_eq_true, beq_iff_eq, not_and] at this ⊢
      tauto
    simp only [compactionComplete, hno, Bool.false_eq_true, if_false]
    cases hd : decoded.head? with
    | none =>
      have : decoded = [] := List.head?_eq_none_iff.mp hd
      subst this
      simp
    | some t =>
      simp only [Bool.and_eq_true, beq_iff_eq]
      constructor
      · rintro ⟨h1, h2⟩
        exact ⟨h1, t, rfl, h2⟩
      · rintro ⟨h1, t', ht', h2⟩
        obtain rfl : t = t' := Option.some_injective _ ht'
        exact ⟨h1, h2⟩

/-- Closed witness for `compactionComplete_contract`: a single rebalance task
is reported complete, and a running bucket compaction is not. -/
theorem compactionComplete_contract_witness :
    compactionComplete [⟨"rebalance", "running"⟩] = true ∧
    compactionComplete [⟨"bucket_compaction", "running"⟩] = false := by
  constructor
  · exact ((compactionComplete_contract [⟨"rebalance", "running"⟩]).2.1
      (by intro t ht; simp at ht; simp [ht])).mpr
      (by exact ⟨rfl, ⟨"rebalance", "running"⟩, rfl, rfl⟩)
  · exact (compactionComplete_contract [⟨"bucket_compaction", "running"⟩]).1
      ⟨⟨"bucket_compaction", "running"⟩, by simp, rfl, rfl⟩

/-! ## Command construction (`NewCommand`, value/command.go:28-36)

`NewCommand` formats the template with `fmt.Sprintf` (out of scope — we take
the formatted string as the input, as a list of characters) and then applies
three `strings.ReplaceAll` passes with empty replacement:
`"\\\n" -> ""`, `"\n" -> ""`, `"\t" -> ""`. Replacing a pattern by the empty
string deletes its non-overlapping occurrences left to right; for the
two-character pattern this is `removeEscapedNewlines`, and for the
single-character patterns it is `List.filter`. -/

def removeEscapedNewlines : List Char → List Char
  | [] => []
  | '\\' :: '\n' :: rest => removeEscapedNewlines rest
  | c :: rest => c :: removeEscapedNewlines rest

/-- Number of `"\\\n"` occurrences deleted by the first `ReplaceAll` pass. -/
def escapedNewlineCount : List Char → Nat
  | [] => 0
  | '\\' :: '\n' :: rest => 1 + escapedNewlineCount rest
  | _ :: rest => escapedNewlineCount rest

def NewCommand (formatted : List Char) : List Char :=
  ((removeEscapedNewlines formatted).filter (fun c => c ≠ '\n')).filter
    (fun c => c ≠ '\t')

theorem removeEscapedNewlines_sublist (s : List Char) :
    (removeEscapedNewlines s).Sublist s := by
  induction s using removeEscapedNewlines.induct with
  | case1 => exact List.Sublist.refl []
  | case2 rest ih =>
    rw [removeEscapedNewlines.eq_2]
    exact ih.trans ((List.sublist_cons_self _ _).trans (List.sublist_cons_self _ _))
  | case3 d rest hne ih =>
    rw [removeEscapedNewlines.eq_3 d rest hne]
    exact List.Sublist.cons₂ d ih

/-- The first `ReplaceAll` pass deletes only backslashes that head a
backslash-newline pair: counts of other non-newline characters are kept. -/
theorem removeEscapedNewlines_count_other (s : List Char) (c : Char)
    (h1 : c ≠ '\\') (h2 : c ≠ '\n') :
    (removeEscapedNewlines s).count c = s.count c := by
  induction s using removeEscapedNewlines.induct with
  | case1 => rfl
  | case2 rest ih =>
    have hb1 : (('\\' : Char) == c) = false :=
      beq_eq_false_iff_ne.mpr fun h => h1 h.symm
    have hb2 : (('\n' : Char) == c) = false :=
      beq_eq_false_iff_ne.mpr fun h => h2 h.symm
    rw [removeEscapedNewlines.eq_2]
    simp [List.count_cons, hb1, hb2, ih]
  | case3 d rest hne ih =>
    rw [removeEscapedNewlines.eq_3 d rest hne]
    simp [List.count_cons, ih]

/-- Backslash accounting for the first pass: exactly one backslash is
deleted per removed backslash-newline pair. -/
theorem removeEscapedNewlines_count_backslash (s : List Char) :
    (removeEscapedNewlines s).count '\\' + escapedNewlineCount s =
      s.count '\\' := by
  induction s using removeEscapedNewlines.induct with
  | case1 => rfl
  | case2 rest ih =>
    rw [removeEscapedNewlines.eq_2, escapedNewlineCount.eq_2]
    have hb1 : (('\n' : Char) == '\\') = false := by decide
    have hb2 : (('\\' : Char) == '\\') = true := by decide
    simp [List.count_cons, hb1, hb2]
    omega
  | case3 d rest hne ih =>
    rw [removeEscapedNewlines.eq_3 d rest hne, escapedNewlineCount.eq_3 d rest hne,
      List.count_cons, List.count_cons]
    omega

/-- C8: the command produced by `NewCommand` contains no newline and no
tab; it is a subsequence of the formatted input (characters are only deleted,
never reordered or inserted); every character other than newlines, tabs and
backslashes keeps its exact multiplicity; and the only backslashes deleted
are the heads of the removed backslash-newline pairs, one per pair. -/
theorem NewCommand_contract (s : List Char) :
    '\n' ∉ NewCommand s ∧
    '\t' ∉ NewCommand s ∧
    (NewCommand s).Sublist s ∧
    (∀ c, c ≠ '\n' → c ≠ '\t' → c ≠ '\\' →
      (NewCommand s).count c = s.count c) ∧
    (NewCommand s).count '\\' + escapedNewlineCount s = s.count '\\' := by
  refine ⟨?_, ?_, ?_, ?_, ?_⟩
  · intro h
    have := (List.mem_filter.mp h).1
    have := (List.mem_filter.mp this).2
    simp at this
  · intro h
    have := (List.mem_filter.mp h).2
    simp at this
  · exact ((List.filter_sublist _).trans (List.filter_sublist _)).trans
      (removeEscapedNewlines_sublist s)
  · intro c hn ht hb
    rw [NewCommand, List.count_filter (by simp [ht]),
      List.count_filter (by simp [hn])]
    exact removeEscapedNewlines_count_other s c hb hn
  · rw [NewCommand, List.count_filter (by decide), List.count_filter (by decide)]
    exact removeEscapedNewlines_count_backslash s

/-- Closed witness for `NewCommand_contract` on a concrete template
containing a backslash-newline pair and a tab: both are removed while
spaces and the remaining characters survive. -/
theorem NewCommand_contract_witness :
    '\n' ∉ NewCommand ['a', ' ', '\\', '\n', '\t', 'b'] ∧
    NewCommand ['a', ' ', '\\', '\n', '\t', 'b'] = ['a', ' ', 'b'] ∧
    (NewCommand ['a', ' ', '\\', '\n', '\t', 'b']).count ' ' =
      (['a', ' ', '\\', '\n', '\t', 'b'] : List Char).count ' ' := by
  refine ⟨(NewCommand_contract ['a', ' ', '\\', '\n', '\t', 'b']).1, by decide, ?_⟩
  exact (NewCommand_contract ['a', ' ', '\\', '\n', '\t', 'b']).2.2.2.1 ' '
    (by decide) (by decide) (by decide)

/-! ## Host port trimming (`trimPort`, ssh/utils.go:31-37)

`strings.Index(s, ":")` returns the index of the first `':'` or `-1` when
absent; the Go code then tests `index != 0` and slices `s[:index]`, which
panics when `index` is out of range — in particular when `index = -1`.
`goSlice` returns `none` for a panicking slice expression. -/

def goStringIndex (s : List Char) (c : Char) : Int :=
  match s.findIdx? (fun d => d == c) with
  | some i => (i : Int)
  | none => -1

def goSlice (s : List Char) (i : Int) : Option (List Char) :=
  if 0 ≤ i ∧ i ≤ (s.length : Int) then some (s.take i.toNat) else none

def trimPort (s : List Char) : Option (List Char) :=
  let index := goStringIndex s ':'
  if index ≠ 0 then goSlice s index else some s

/-- C9 divergence: `trimPort` is not total. On `"localhost"` — any
input without a colon — `strings.Index` yields `-1`, the guard `index != 0`
passes, and `s[:-1]` panics (modelled as `none`), contradicting both the
claim and the function's own doc comment ("the string will be returned
unchanged"); the intended guard is `index != -1`. On `"host:22"` the port is
trimmed as documented, while on `":22"` (colon first) the string is returned
unchanged rather than truncated at the colon. -/
theorem trimPort_divergence :
    trimPort ['l', 'o', 'c', 'a', 'l', 'h', 'o', 's', 't'] = none ∧
    trimPort ['h', 'o', 's', 't', ':', '2', '2'] = some ['h', 'o', 's', 't'] ∧
    trimPort [':', '2', '2'] = some [':', '2', '2'] := by
  refine ⟨?_, ?_, ?_⟩ <;> rfl

/-! ## Backup purge (`BackupClient.purgeBackups`, nodes/cluster.go:1125-1157)

The Go function runs the `info` command, decodes its JSON into a list of
backups (each with a `date`), returns `nil` without issuing any further
command when the list is empty, and otherwise issues exactly one `remove`
command spanning `decoded.Backups[0].Date` to
`decoded.Backups[len(decoded.Backups)-1].Date`. We model the decoded backup
list as the input and the list of issued `remove` commands — as
(start date, end date) pairs — as the observable output. -/

structure Backup where
  date : String

def purgeBackups (decoded : List Backup) : List (String × String) :=
  match decoded with
  | [] => []
  | b :: bs => [(b.date, (bs.getLastD b).date)]

/-- C10: with an empty repository the purge issues no remove command at
all (the remote archive is untouched); with a non-empty backup list it
issues exactly one remove command, spanning the first backup's date to the
last backup's date. -/
theorem purgeBackups_contract (decoded : List Backup) :
    (decoded = [] → purgeBackups decoded = []) ∧
    (decoded ≠ [] →
      ∃ b0 bl, decoded.head? = some b0 ∧ decoded.getLast? = some bl ∧
        purgeBackups decoded = [(b0.date, bl.date)]) := by
  cases decoded with
  | nil => exact ⟨fun _ => rfl, fun h => absurd rfl h⟩
  | cons b bs =>
    refine ⟨fun h => absurd h (List.cons_ne_nil b bs), fun _ => ?_⟩
    refine ⟨b, bs.getLastD b, rfl, ?_, rfl⟩
    rw [List.getLast?_cons, List.getLastD_eq_getLast?]

/-- Closed witness for `purgeBackups_contract`: three backups produce one
remove command from the first to the last date; an empty repository
produces none. -/
theorem purgeBackups_contract_witness :
    purgeBackups [] = [] ∧
    purgeBackups [⟨"d1"⟩, ⟨"d2"⟩, ⟨"d3"⟩] = [("d1", "d3")] := by
  refine ⟨(purgeBackups_contract []).1 rfl, ?_⟩
  obtain ⟨b0, bl, h0, hl, he⟩ :=
    (purgeBackups_contract [⟨"d1"⟩, ⟨"d2"⟩, ⟨"d3"⟩]).2 (by simp)
  rw [he]
  obtain rfl : b0 = ⟨"d1"⟩ := (Option.some_injective _ h0).symm
  obtain rfl : bl = ⟨"d3"⟩ := by
    have : ([⟨"d1"⟩, ⟨"d2"⟩, ⟨"d3"⟩] : List Backup).getLast? = some ⟨"d3"⟩ := rfl
    exact (Option.some_injective _ (this ▸ hl)).symm
  rfl

end Autobench
